import Mathlib

/-!
Verification of the RajanMusicBot media pipeline and playback queue
(src/main.py) against its design specification.

The Python source is shallowly embedded: filesystem and network effects are
made explicit (directory listings are passed in as lists, HTTP responses as
functions from the request to a result, transport calls are collected into
an effect list), and machine state (the per-process playback queue) is passed
explicitly. Each embedded definition carries a doc comment naming the source
function and lines it translates.
-/

/-- Model of Python str.startswith, used as fname.startswith(vid) in
find_file_by_id (src/main.py line 106) and query.startswith("http") in
video_cmd (line 176). A string starts with pre iff the characters of pre are a
prefix of its characters. -/
def strStartsWith (s pre : String) : Bool :=
  pre.data.isPrefixOf s.data

/-- Model of os.path.join(dir, name) for a relative name, as used in
find_file_by_id (line 107) and cleanup_downloads (line 113). -/
def pathJoin (dir name : String) : String :=
  dir ++ "/" ++ name

/-- Embedding of find_file_by_id (src/main.py lines 104-108). The directory
scan os.listdir(DOWNLOADS_DIR) is made explicit as the argument listing;
DOWNLOADS_DIR is the argument dir. The loop returns the joined path of the
first listed name that starts with vid, and None when no name matches. -/
def find_file_by_id (dir vid : String) : List String → Option String
  | [] => none
  | fname :: rest =>
    if strStartsWith fname vid then some (pathJoin dir fname)
    else find_file_by_id dir vid rest

/-- A directory entry as seen by cleanup_downloads: its name and whether
os.path.isfile holds for it (subdirectories and other non-regular entries
have isFile = false). -/
structure Entry where
  name : String
  isFile : Bool
deriving DecidableEq, Repr

/-- Embedding of cleanup_downloads (src/main.py lines 110-117). The listing
of DOWNLOADS_DIR is explicit; the result is the listing that remains after
the sweep: the loop os.remove-s every entry for which os.path.isfile holds
and touches nothing else. The Python body is wrapped in try/except pass, so
the function is total and never raises; in this effect-free model removal
always succeeds. -/
def cleanup_downloads : List Entry → List Entry
  | [] => []
  | e :: rest =>
    if e.isFile then cleanup_downloads rest
    else e :: cleanup_downloads rest

/-- The separator " - " that fetch_lyrics (src/main.py line 90) looks for in
the query, as a character list. -/
def SEP : List Char := [' ', '-', ' ']

/-- Model of Python query.split(" - ", 1) together with the preceding
membership test " - " in query (src/main.py lines 90-91): returns
some (before, after) split at the FIRST occurrence of sep, and none when sep
does not occur. (Faithful for nonempty sep; the source only uses " - ".) -/
def splitFirst (sep : List Char) : List Char → Option (List Char × List Char)
  | [] => none
  | c :: rest =>
    if sep.isPrefixOf (c :: rest) then some ([], (c :: rest).drop sep.length)
    else
      match splitFirst sep rest with
      | some (a, b) => some (c :: a, b)
      | none => none

/-- The lyrics.ovh URL that fetch_lyrics builds (src/main.py lines 90-95):
either the artist/title form https://api.lyrics.ovh/v1/<artist>/<title> when
the query contains " - ", or the direct fallback form
https://api.lyrics.ovh/v1/<query>. -/
inductive LyricsUrl where
  | artistTitle (artist title : List Char)
  | direct (q : List Char)
deriving DecidableEq, Repr

/-- URL construction of fetch_lyrics (src/main.py lines 90-95): split the
query at the first " - " into artist and title when present, else fall back
to the direct form. -/
def lyrics_url (q : List Char) : LyricsUrl :=
  match splitFirst SEP q with
  | some (a, t) => LyricsUrl.artistTitle a t
  | none => LyricsUrl.direct q

/-- Outcome of the HTTP GET in fetch_lyrics (src/main.py lines 96-99): either
a raised exception (err covers connection failure, the 10s client timeout,
and a non-JSON body) or a response with a status code and the optional
"lyrics" field of its JSON body (data.get("lyrics")). -/
inductive HttpResult where
  | err
  | resp (status : Nat) (lyricsField : Option String)
deriving DecidableEq, Repr

/-- Embedding of fetch_lyrics (src/main.py lines 85-102). The network is the
explicit argument http, mapping the constructed URL to its result. The
try/except returns None on any exception; a 200 response returns
data.get("lyrics") (None when the field is absent); any other status falls
through to the final return None. The function is total: no exception
escapes to the caller. -/
def fetch_lyrics (http : LyricsUrl → HttpResult) (q : List Char) : Option String :=
  match http (lyrics_url q) with
  | HttpResult.err => none
  | HttpResult.resp status ly => if status = 200 then ly else none

/-- Resolver target built by song_cmd (src/main.py line 157): the query is
always wrapped as the ytsearch: top-1 search directive, with no URL check. -/
def song_cmd_target (query : String) : String :=
  "ytsearch:" ++ query

/-- Resolver target built by play_cmd (src/main.py line 303): always
wrapped in the ytsearch: directive, with no URL check. -/
def play_cmd_target (query : String) : String :=
  "ytsearch:" ++ query

/-- Resolver target built by video_cmd (src/main.py line 176): the query is
passed through unchanged when it starts with "http", else wrapped in the
ytsearch: search directive. -/
def video_cmd_target (query : String) : String :=
  if strStartsWith query "http" then query else "ytsearch:" ++ query

/-- Resolver target built by yt_cmd (src/main.py line 196): the argument is
passed to the resolver unchanged, with no URL check and no search directive. -/
def yt_cmd_target (arg : String) : String :=
  arg

/-- Resolver target built by search_youtube (src/main.py line 81):
the directive ytsearch<limit>:<query>, with no URL check; search_cmd calls it with
limit = 5. -/
def search_youtube_target (query : String) (limit : Nat) : String :=
  "ytsearch" ++ toString limit ++ ":" ++ query

/-- Failure taxonomy of the design for job results. Only used to state what
run_yt can and cannot resolve to. -/
inductive FailureReason where
  | notFound
  | extractionError
  | unsupported
  | timeout
  | transportError
deriving DecidableEq, Repr

/-- Resolution of the future of a job. -/
inductive JobOutcome (α : Type) where
  | succeeded (r : α)
  | failed (reason : FailureReason)
deriving DecidableEq, Repr

/-- Embedding of run_yt (src/main.py lines 70-75). The coroutine awaits
loop.run_in_executor(POOL, _run) with no asyncio.wait_for and no other
timeout mechanism anywhere in the file, so the future resolves with exactly
the result of the work; no code path inspects elapsed time. The duration
argument is the running time of the work: the outcome does not depend on it. -/
def run_yt (work : Unit → α) (duration : Nat) : JobOutcome α :=
  JobOutcome.succeeded (work ())

/-- The pool bound from POOL = ThreadPoolExecutor(max_workers=3)
(src/main.py line 52). -/
def POOL_max_workers : Nat := 3

/-- Least element of a list of worker-available times (the list is nonempty
in every use; the [] value is irrelevant). -/
def listMin : List Nat → Nat
  | [] => 0
  | [a] => a
  | a :: b :: rest => min a (listMin (b :: rest))

/-- Replace the first occurrence of m in the list by v. -/
def replaceFirst : List Nat → Nat → Nat → List Nat
  | [], _, _ => []
  | a :: rest, m, v => if a = m then v :: rest else a :: replaceFirst rest m v

/-- Modelled from the spec: the scheduling loop of the worker
pool of the Job Executor is not part of src/main.py — the source only constructs
POOL = ThreadPoolExecutor(max_workers=3) (line 52) and hands work to it via
loop.run_in_executor (line 75). Following the Job Executor contract of the spec
(bounded concurrency; excess submissions queue in FIFO order and run as
capacity frees), jobs submitted simultaneously at time 0 are started in
submission order, each as soon as a worker is free: avail holds the
next-free time of each worker, a job starts at the least such time and occupies
that worker for its duration. Returns the start times of the jobs in
submission order. -/
def startTimes : List Nat → List Nat → List Nat
  | _, [] => []
  | avail, d :: ds =>
    listMin avail ::
      startTimes (replaceFirst avail (listMin avail) (listMin avail + d)) ds

/-- Number of jobs running at time t, given (start, duration) pairs: job i is
running at t when start ≤ t < start + duration. -/
def runningAt (t : Nat) : List (Nat × Nat) → Nat
  | [] => 0
  | (s, d) :: rest => (if s ≤ t ∧ t < s + d then 1 else 0) + runningAt t rest

/-- A call made to the external streaming transport (pytgcalls). changeStream
embeds vc_client.change_stream(chat_id, AudioPiped(path)) (src/main.py lines
294 and 332); startStream is the distinct start-stream primitive of the
transport interface in the spec, which no line of src/main.py ever calls (the
only other transport calls are join_group_call and leave_group_call). The
chat id is the same throughout the calls of one controller and is omitted. -/
inductive TransportCall where
  | startStream (path : String)
  | changeStream (path : String)
deriving DecidableEq, Repr

/-- The playback controller state of src/main.py lines 266-267: the
process-wide variables queue (pending file paths, FIFO) and current
(currently playing path, None when idle). -/
structure VCState where
  queue : List String
  current : Option String
deriving DecidableEq, Repr

/-- The Idle controller state: empty pending, empty current. -/
def idleState : VCState :=
  { queue := [], current := none }

/-- The silence source os.path.join(DOWNLOADS_DIR, "silence.mp3") that
stop_cmd streams (src/main.py line 332), for the default downloads
directory. -/
def silencePath : String :=
  pathJoin "./downloads" "silence.mp3"

/-- Embedding of _play_next (src/main.py lines 287-294), the advance
operation of the controller (also invoked by skip_cmd line 322): when the queue is
empty, set current to None and make no transport call; otherwise pop the
head of the queue into current and issue change_stream with it. Returns the
new state and the transport calls made. -/
def play_next (s : VCState) : VCState × List TransportCall :=
  match s.queue with
  | [] => ({ queue := s.queue, current := none }, [])
  | src :: rest =>
    ({ queue := rest, current := some src }, [TransportCall.changeStream src])

/-- Embedding of the queue step of play_cmd (src/main.py lines 310-314),
after the download has produced file_path: append file_path to the queue,
then, when current is None, run _play_next. -/
def play_cmd_enqueue (s : VCState) (filePath : String) : VCState × List TransportCall :=
  match s.current with
  | none => play_next { s with queue := s.queue ++ [filePath] }
  | some c => ({ queue := s.queue ++ [filePath], current := some c }, [])

/-- Embedding of skip_cmd (src/main.py lines 318-325): just _play_next. -/
def skip_cmd (s : VCState) : VCState × List TransportCall :=
  play_next s

/-- Embedding of stop_cmd (src/main.py lines 327-335): queue.clear(), then
change_stream to the silence source. The variable current is not assigned. -/
def stop_cmd (s : VCState) : VCState × List TransportCall :=
  ({ queue := [], current := s.current }, [TransportCall.changeStream silencePath])

/-- Run play_cmd_enqueue over a list of paths in order, from state s,
accumulating the transport calls. -/
def enqueueAll (s : VCState) : List String → VCState × List TransportCall
  | [] => (s, [])
  | p :: ps =>
    match play_cmd_enqueue s p with
    | (s1, calls1) =>
      match enqueueAll s1 ps with
      | (s2, calls2) => (s2, calls1 ++ calls2)

/-- Fuel-bounded collection of the values taken by current: record current,
advance with _play_next, repeat until current is None. -/
def playTraceAux : Nat → VCState → List String
  | 0, _ => []
  | Nat.succ n, s =>
    match s.current with
    | none => []
    | some c => c :: playTraceAux n (play_next s).1

/-- The play order observed from state s: the sequence of tracks shown by
current, inspecting it and then calling advance (_play_next) until the
controller is idle. The queue length plus one bounds the number of tracks. -/
def playTrace (s : VCState) : List String :=
  playTraceAux (s.queue.length + 1) s

/-- A list is a prefix of itself followed by anything. -/
theorem isPrefixOf_append_self (p r : List Char) : p.isPrefixOf (p ++ r) = true := by
  induction p with
  | nil => simp [List.isPrefixOf]
  | cons c cs ih => simp [List.isPrefixOf, ih]

/-- A verified prefix can be peeled off: the list is the prefix followed by
the remaining drop. -/
theorem isPrefixOf_append_drop (p : List Char) :
    ∀ l : List Char, p.isPrefixOf l = true → l = p ++ l.drop p.length := by
  induction p with
  | nil => intro l _; simp
  | cons c cs ih =>
    intro l h
    cases l with
    | nil => simp [List.isPrefixOf] at h
    | cons b bs =>
      simp only [List.isPrefixOf, Bool.and_eq_true, beq_iff_eq] at h
      obtain ⟨hcb, hrest⟩ := h
      have := ih bs hrest
      simp [hcb]
      exact this

/-- A string of the form a followed by anything starts with a. -/
theorem strStartsWith_of_append (a b c : String) :
    strStartsWith (a ++ b ++ c) a = true := by
  have hd : (a ++ b ++ c).data = a.data ++ (b.data ++ c.data) := by
    simp [String.data_append]
  simp only [strStartsWith, hd]
  exact isPrefixOf_append_self a.data (b.data ++ c.data)

/-- Soundness of splitFirst: a successful split decomposes the input around
the separator, and the separator occurs nowhere earlier. -/
theorem splitFirst_sound (sep : List Char) :
    ∀ q a b, splitFirst sep q = some (a, b) →
      q = a ++ sep ++ b ∧ ∀ i, i < a.length → sep.isPrefixOf (q.drop i) = false := by
  intro q
  induction q with
  | nil => intro a b h; simp [splitFirst] at h
  | cons c rest ih =>
    intro a b h
    by_cases hp : sep.isPrefixOf (c :: rest) = true
    · rw [splitFirst, if_pos hp] at h
      obtain ⟨ha, hb⟩ := Prod.mk.injEq .. ▸ (Option.some.injEq .. ▸ h)
      refine ⟨?_, ?_⟩
      · rw [← ha, ← hb]
        simpa using isPrefixOf_append_drop sep (c :: rest) hp
      · intro i hi
        rw [← ha] at hi
        simp at hi
    · have hp0 : sep.isPrefixOf (c :: rest) = false := by
        exact Bool.not_eq_true _ ▸ eq_false_of_ne_true hp
      cases hrec : splitFirst sep rest with
      | none => rw [splitFirst, if_neg hp, hrec] at h; simp at h
      | some p =>
        obtain ⟨a0, b0⟩ := p
        rw [splitFirst, if_neg hp, hrec] at h
        obtain ⟨ha, hb⟩ := Prod.mk.injEq .. ▸ (Option.some.injEq .. ▸ h)
        obtain ⟨h1, h2⟩ := ih a0 b0 hrec
        refine ⟨?_, ?_⟩
        · rw [← ha, ← hb, h1]; simp
        · intro i hi
          rw [← ha] at hi
          cases i with
          | zero => simpa using hp0
          | succ j =>
            simp at hi
            simpa using h2 j hi

/-- Completeness of splitFirst: when the separator occurs in the input, the
split succeeds. -/
theorem splitFirst_complete (sep : List Char) (hsep : sep ≠ []) :
    ∀ a b, ∃ p, splitFirst sep (a ++ sep ++ b) = some p := by
  intro a
  induction a with
  | nil =>
    intro b
    cases hq : sep ++ b with
    | nil =>
      rcases List.append_eq_nil.mp hq with ⟨h1, _⟩
      exact absurd h1 hsep
    | cons c rest =>
      have hpre : sep.isPrefixOf (c :: rest) = true := by
        rw [← hq]; exact isPrefixOf_append_self sep b
      refine ⟨([], (c :: rest).drop sep.length), ?_⟩
      simp only [List.nil_append, hq, splitFirst, if_pos hpre]
  | cons c a0 ih =>
    intro b
    by_cases hp : sep.isPrefixOf (c :: (a0 ++ sep ++ b)) = true
    · refine ⟨([], (c :: (a0 ++ sep ++ b)).drop sep.length), ?_⟩
      simp only [List.cons_append, List.append_assoc] at hp ⊢
      rw [splitFirst, if_pos hp]
    · obtain ⟨p, hrec⟩ := ih b
      refine ⟨(c :: p.1, p.2), ?_⟩
      simp only [List.cons_append, List.append_assoc] at hp hrec ⊢
      rw [splitFirst, if_neg hp, hrec]

/-- Sequential enqueues onto a controller that is already playing only append
to the pending queue and make no transport call. -/
theorem enqueueAll_playing (ps : List String) :
    ∀ (q : List String) (c : String),
      enqueueAll { queue := q, current := some c } ps
        = ({ queue := q ++ ps, current := some c }, []) := by
  induction ps with
  | nil => intro q c; simp [enqueueAll]
  | cons p ps ih =>
    intro q c
    simp only [enqueueAll, play_cmd_enqueue]
    rw [ih (q ++ [p]) c]
    simp

/-- Enqueueing a first track on the Idle controller starts it at once;
further enqueues append behind it. -/
theorem enqueueAll_idle (p : String) (ps : List String) :
    enqueueAll idleState (p :: ps)
      = ({ queue := ps, current := some p }, [TransportCall.changeStream p]) := by
  simp only [enqueueAll, idleState, play_cmd_enqueue, play_next]
  simp only [List.nil_append]
  rw [enqueueAll_playing ps [] p]
  simp

/-- With sufficient fuel, the observed trace from a playing state is the
current track followed by the pending queue in order. -/
theorem playTraceAux_spec (q : List String) :
    ∀ (c : String) (n : Nat), q.length < n →
      playTraceAux n { queue := q, current := some c } = c :: q := by
  induction q with
  | nil =>
    intro c n hn
    match n, hn with
    | Nat.succ m, _ =>
      cases m with
      | zero => simp [playTraceAux, play_next]
      | succ k => simp [playTraceAux, play_next]
  | cons p rest ih =>
    intro c n hn
    match n, hn with
    | Nat.succ m, hn =>
      have hm : rest.length < m := by
        simpa [Nat.succ_lt_succ_iff] using hn
      simp only [playTraceAux, play_next]
      rw [ih p m hm]

/-- Claim C1: for every sequence of enqueue calls made on the empty (Idle)
playback queue controller, the play order equals the enqueue order. The play
order is the sequence of tracks shown by current, starting from the moment
the first enqueue starts playback and advancing with _play_next after each
inspection: it is exactly the enqueued list, FIFO. -/
theorem enqueue_order_is_play_order (ps : List String) :
    playTrace (enqueueAll idleState ps).1 = ps := by
  cases ps with
  | nil => simp [enqueueAll, playTrace, playTraceAux, idleState]
  | cons p ps =>
    rw [enqueueAll_idle p ps]
    exact playTraceAux_spec ps p (ps.length + 1) (Nat.lt_succ_self _)

/-- Claim C2, counterexample: stop_cmd does not set current to empty. On the
Playing state with current = "a" and pending = ["b"], the state after
stop_cmd still has current = "a", not none, refuting the claim that stop
leaves the controller Idle with empty current. -/
theorem stop_cmd_keeps_current_cex :
    ¬ ((stop_cmd { queue := ["b"], current := some "a" }).1.current = none) := by
  decide

/-- Claim C2, amended: stop_cmd clears the pending queue and issues a
change-stream call to the silence source, but leaves current unchanged (the
controller is Idle only in the sense that nothing further is pending).
stop_cmd followed by advance (_play_next) does leave the controller Idle
with empty pending and empty current, and a further advance keeps it there,
so the amended idempotence holds one advance later than claimed. -/
theorem stop_cmd_then_advance_spec (s : VCState) :
    (stop_cmd s).1.queue = []
    ∧ (stop_cmd s).1.current = s.current
    ∧ (stop_cmd s).2 = [TransportCall.changeStream silencePath]
    ∧ (play_next (stop_cmd s).1).1 = idleState
    ∧ (play_next (stop_cmd s).1).2 = []
    ∧ play_next idleState = (idleState, []) := by
  simp [stop_cmd, play_next, idleState]

/-- Claim C3, counterexample: enqueueing a path on the Idle controller makes
the transport call change_stream (pytgcalls change_stream, issued by
_play_next), not a distinct start-stream call: the emitted call list for
enqueue of "a" on Idle is exactly one changeStream and contains no
startStream. -/
theorem enqueue_idle_no_startStream_cex :
    (play_cmd_enqueue idleState "a").2 = [TransportCall.changeStream "a"]
    ∧ TransportCall.startStream "a" ∉ (play_cmd_enqueue idleState "a").2 := by
  decide

/-- Claim C3, amended: enqueue of a path on the Idle controller (empty
current, empty pending) appends the path, immediately pops it from pending
into current, and issues a change-stream call (not a start-stream call) to
the transport with that path, leaving the controller Playing with current
equal to the enqueued path and pending empty. -/
theorem enqueue_on_idle_spec (p : String) :
    play_cmd_enqueue idleState p
      = ({ queue := [], current := some p }, [TransportCall.changeStream p]) := by
  simp [play_cmd_enqueue, idleState, play_next]

/-- Claim C4: advance (_play_next) with empty pending is a valid total
transition, not an error: it sets current to empty (Idle) and issues no
transport call; with non-empty pending it pops the head into current and
issues exactly one change-stream call. skip_cmd behaves the same, being a
direct call of _play_next. In the Python source the empty case is guarded
(if not queue), so no IndexError can escape; the embedding is a total
function. -/
theorem advance_empty_and_nonempty_spec (c : Option String) (p : String)
    (rest : List String) :
    play_next { queue := [], current := c } = ({ queue := [], current := none }, [])
    ∧ play_next { queue := p :: rest, current := c }
        = ({ queue := rest, current := some p }, [TransportCall.changeStream p])
    ∧ skip_cmd { queue := [], current := c } = ({ queue := [], current := none }, []) := by
  simp [play_next, skip_cmd]

/-- Claim C5: find_file_by_id returns the exact joined path of the file named
id.ext when that file is listed among other files none of which (before it)
start with id, and returns None when no listed file matches the id at all,
even when the listing holds names with similar but non-matching prefixes. -/
theorem find_file_by_id_spec (dir id ext : String) (l1 l2 l : List String)
    (h1 : ∀ n ∈ l1, strStartsWith n id = false)
    (h2 : ∀ n ∈ l, strStartsWith n id = false) :
    find_file_by_id dir id (l1 ++ (id ++ "." ++ ext) :: l2)
      = some (pathJoin dir (id ++ "." ++ ext))
    ∧ find_file_by_id dir id l = none := by
  constructor
  · induction l1 with
    | nil =>
      rw [List.nil_append, find_file_by_id,
        if_pos (strStartsWith_of_append id "." ext)]
    | cons n ns ih =>
      rw [List.cons_append, find_file_by_id, if_neg (by simp [h1 n (by simp)])]
      exact ih fun m hm => h1 m (by simp [hm])
  · induction l with
    | nil => rfl
    | cons n ns ih =>
      rw [find_file_by_id, if_neg (by simp [h2 n (by simp)])]
      exact ih fun m hm => h2 m (by simp [hm])

/-- Witness for claim C5 at a concrete directory listing: the file abc.mp3 is
located exactly among distractors abd.mp3, zz.mp3 and abcz.mp3, and the id
abc yields None in a listing whose names only share non-matching prefixes. -/
theorem find_file_by_id_spec_witness :
    find_file_by_id "d" "abc" (["abd.mp3", "zz.mp3"] ++ ("abc" ++ "." ++ "mp3") :: ["abcz.mp3"])
      = some (pathJoin "d" ("abc" ++ "." ++ "mp3"))
    ∧ find_file_by_id "d" "abc" ["abd.mp3", "abz.mp3"] = none :=
  find_file_by_id_spec "d" "abc" "mp3" ["abd.mp3", "zz.mp3"] ["abcz.mp3"]
    ["abd.mp3", "abz.mp3"] (by decide) (by decide)

/-- Claim C6, counterexample: no per-job timeout exists in the source, so a
job whose work runs for 1000 time units — far beyond any small configured
bound such as 10 — still resolves its future with the result of the work,
not with Failed(Timeout). -/
theorem run_yt_timeout_cex :
    1000 > 10
    ∧ run_yt (fun _ => (0 : Nat)) 1000 = JobOutcome.succeeded 0
    ∧ run_yt (fun _ => (0 : Nat)) 1000 ≠ JobOutcome.failed FailureReason.timeout := by
  decide

/-- Claim C6, amended: run_yt awaits the pooled work with no timeout
mechanism, so for every work item and every duration the future resolves
with exactly the result of the work and never with a Failed reason; in
particular no Failed(Timeout) resolution is possible and the work is always
waited for to completion rather than abandoned. -/
theorem run_yt_resolves_with_work_result {α : Type} (work : Unit → α) (d : Nat) :
    run_yt work d = JobOutcome.succeeded (work ())
    ∧ ∀ reason, run_yt work d ≠ JobOutcome.failed reason := by
  refine ⟨rfl, ?_⟩
  intro reason h
  simp [run_yt] at h

/-- Claim C8, counterexample: song_cmd does not disambiguate by URL prefix.
For the URL target "http://a" (recognizable by its http prefix), song_cmd
builds the resolver target "ytsearch:http://a" — a search directive — rather
than resolving the URL directly, refuting the claim that every
resolver-client call disambiguates URL targets. -/
theorem resolver_target_disambiguation_cex :
    strStartsWith "http://a" "http" = true
    ∧ song_cmd_target "http://a" = "ytsearch:http://a"
    ∧ song_cmd_target "http://a" ≠ "http://a" := by
  decide

/-- Claim C8, amended: only video_cmd disambiguates its target by the URL
prefix http, resolving a URL directly and otherwise prefixing the top-1
search directive. song_cmd and play_cmd always prefix the top-1 search
directive ytsearch: even for URLs; yt_cmd passes its argument through
unchanged even for free text; search_youtube always prefixes the top-5
directive ytsearch5: for the listing command. K = 1 holds for the
single-result query paths and K = 5 for listing, but the URL/query
disambiguation exists only in video_cmd. -/
theorem resolver_targets_spec (q u : String)
    (hu : strStartsWith u "http" = true) (hq : strStartsWith q "http" = false) :
    song_cmd_target u = "ytsearch:" ++ u
    ∧ play_cmd_target u = "ytsearch:" ++ u
    ∧ yt_cmd_target q = q
    ∧ search_youtube_target u 5 = "ytsearch5:" ++ u
    ∧ video_cmd_target u = u
    ∧ video_cmd_target q = "ytsearch:" ++ q := by
  have h5 : "ytsearch" ++ toString (5 : Nat) ++ ":" = "ytsearch5:" := by decide
  refine ⟨rfl, rfl, rfl, ?_, ?_, ?_⟩
  · rw [search_youtube_target, h5]
  · rw [video_cmd_target, if_pos hu]
  · rw [video_cmd_target, if_neg (by simp [hq])]

/-- Witness for claim C8 amended theorem, at the URL "http://a" and the free
text "hello". -/
theorem resolver_targets_spec_witness :
    song_cmd_target "http://a" = "ytsearch:" ++ "http://a"
    ∧ play_cmd_target "http://a" = "ytsearch:" ++ "http://a"
    ∧ yt_cmd_target "hello" = "hello"
    ∧ search_youtube_target "http://a" 5 = "ytsearch5:" ++ "http://a"
    ∧ video_cmd_target "http://a" = "http://a"
    ∧ video_cmd_target "hello" = "ytsearch:" ++ "hello" :=
  resolver_targets_spec "hello" "http://a" (by decide) (by decide)

/-- Claim C9: cleanup_downloads removes every regular-file entry from the
downloads listing and nothing else — the surviving entries are exactly the
non-file entries, in their original order. The embedded function is total
(the source wraps the sweep in try/except pass), so cleanup never raises. -/
theorem cleanup_downloads_spec (l : List Entry) :
    (∀ e ∈ cleanup_downloads l, e.isFile = false)
    ∧ cleanup_downloads l = l.filter (fun e => !e.isFile) := by
  induction l with
  | nil => simp [cleanup_downloads]
  | cons e rest ih =>
    by_cases he : e.isFile
    · simpa [cleanup_downloads, he] using ih
    · have he0 : e.isFile = false := by simpa using he
      refine ⟨?_, ?_⟩
      · intro x hx
        rw [cleanup_downloads, if_neg (by simp [he0])] at hx
        rcases List.mem_cons.mp hx with h | h
        · rw [h]; exact he0
        · exact ih.1 x h
      · rw [cleanup_downloads, if_neg (by simp [he0])]
        simp [he0, ih.2]

/-- Witness for claim C9 at a concrete listing holding one regular file and
one subdirectory entry: the subdirectory survives and is a non-file, and the
sweep equals the non-file filter of the listing. -/
theorem cleanup_downloads_spec_witness :
    (Entry.mk "sub" false).isFile = false
    ∧ cleanup_downloads [Entry.mk "a.mp3" true, Entry.mk "sub" false]
        = [Entry.mk "a.mp3" true, Entry.mk "sub" false].filter (fun e => !e.isFile) :=
  ⟨(cleanup_downloads_spec [Entry.mk "a.mp3" true, Entry.mk "sub" false]).1
      (Entry.mk "sub" false) (by decide),
   (cleanup_downloads_spec [Entry.mk "a.mp3" true, Entry.mk "sub" false]).2⟩

/-- Claim C10: fetch_lyrics never propagates an exception (the embedding is a
total function into Option, the try/except and the final return None of the
source): it returns lyrics text exactly when the HTTP response has status
200 and its body carries a lyrics field, and returns None for any non-200
status or failed request (err covers timeouts and other exceptions). A query
containing " - " is split at the FIRST occurrence into artist and title for
the lookup URL; conversely any query of the form a ++ " - " ++ b is looked
up through the artist/title URL. -/
theorem fetch_lyrics_spec (http : LyricsUrl → HttpResult) (q : List Char) :
    (∀ t, fetch_lyrics http q = some t → http (lyrics_url q) = HttpResult.resp 200 (some t))
    ∧ (http (lyrics_url q) = HttpResult.err → fetch_lyrics http q = none)
    ∧ (∀ s ly, http (lyrics_url q) = HttpResult.resp s ly → s ≠ 200 →
        fetch_lyrics http q = none)
    ∧ (∀ a t, lyrics_url q = LyricsUrl.artistTitle a t →
        q = a ++ SEP ++ t ∧ ∀ i, i < a.length → SEP.isPrefixOf (q.drop i) = false)
    ∧ (∀ a t, q = a ++ SEP ++ t → ∃ a2 t2, lyrics_url q = LyricsUrl.artistTitle a2 t2) := by
  refine ⟨?_, ?_, ?_, ?_, ?_⟩
  · intro t h
    rw [fetch_lyrics] at h
    cases hh : http (lyrics_url q) with
    | err => rw [hh] at h; simp at h
    | resp s ly =>
      rw [hh] at h
      simp only at h
      by_cases hs : s = 200
      · rw [if_pos hs] at h; rw [hs, h]
      · rw [if_neg hs] at h; simp at h
  · intro h; rw [fetch_lyrics, h]
  · intro s ly h hs
    rw [fetch_lyrics, h]
    simp only
    rw [if_neg hs]
  · intro a t h
    rw [lyrics_url] at h
    cases hsp : splitFirst SEP q with
    | none => rw [hsp] at h; simp at h
    | some p =>
      obtain ⟨a0, t0⟩ := p
      rw [hsp] at h
      simp only [LyricsUrl.artistTitle.injEq] at h
      obtain ⟨ha, ht⟩ := h
      rw [← ha, ← ht]
      exact splitFirst_sound SEP q a0 t0 hsp
  · intro a t h
    obtain ⟨p, hp⟩ := splitFirst_complete SEP (by decide) a t
    rw [← h] at hp
    exact ⟨p.1, p.2, by rw [lyrics_url, hp]⟩

/-- Witness for claim C10 at the concrete query "ab - cd" and a network that
answers 200 with a lyrics field: the query splits as artist "ab" and title
"cd" with no earlier separator occurrence, and the 200 response is what a
some result of fetch_lyrics comes from. -/
theorem fetch_lyrics_spec_witness :
    (['a', 'b', ' ', '-', ' ', 'c', 'd'] : List Char) = ['a', 'b'] ++ SEP ++ ['c', 'd']
    ∧ (∀ i, i < (['a', 'b'] : List Char).length →
        SEP.isPrefixOf ((['a', 'b', ' ', '-', ' ', 'c', 'd'] : List Char).drop i) = false)
    ∧ (fun _ : LyricsUrl => HttpResult.resp 200 (some "L"))
        (lyrics_url ['a', 'b', ' ', '-', ' ', 'c', 'd']) = HttpResult.resp 200 (some "L") :=
  ⟨((fetch_lyrics_spec (fun _ => HttpResult.resp 200 (some "L"))
      ['a', 'b', ' ', '-', ' ', 'c', 'd']).2.2.2.1 ['a', 'b'] ['c', 'd'] (by decide)).1,
   ((fetch_lyrics_spec (fun _ => HttpResult.resp 200 (some "L"))
      ['a', 'b', ' ', '-', ' ', 'c', 'd']).2.2.2.1 ['a', 'b'] ['c', 'd'] (by decide)).2,
   (fetch_lyrics_spec (fun _ => HttpResult.resp 200 (some "L"))
      ['a', 'b', ' ', '-', ' ', 'c', 'd']).1 "L" (by decide)⟩

/-- Claim C7 (pool behaviour modelled from the spec, pool size from the
source): four jobs with positive durations d1, d2, d3, d4 submitted
simultaneously to the three-worker pool start at times 0, 0, 0 and
min d1 (min d2 d3): the fourth starts exactly when the earliest of the first
three completes (its start equals one of their completion times and is
strictly after submission), start times are FIFO-ordered (nondecreasing in
submission order), and at no time are more than POOL_max_workers = 3 jobs
running. -/
theorem pool_fifo_bound (d1 d2 d3 d4 : Nat)
    (h1 : 0 < d1) (h2 : 0 < d2) (h3 : 0 < d3) :
    startTimes [0, 0, 0] [d1, d2, d3, d4] = [0, 0, 0, min d1 (min d2 d3)]
    ∧ (min d1 (min d2 d3) = d1 ∨ min d1 (min d2 d3) = d2 ∨ min d1 (min d2 d3) = d3)
    ∧ 0 < min d1 (min d2 d3)
    ∧ List.Pairwise (fun a b => a ≤ b) (startTimes [0, 0, 0] [d1, d2, d3, d4])
    ∧ ∀ t, runningAt t ((startTimes [0, 0, 0] [d1, d2, d3, d4]).zip [d1, d2, d3, d4])
        ≤ POOL_max_workers := by
  have e1 : ¬ d1 = 0 := by omega
  have e2 : ¬ d2 = 0 := by omega
  have hstart : startTimes [0, 0, 0] [d1, d2, d3, d4]
      = [0, 0, 0, min d1 (min d2 d3)] := by
    simp [startTimes, listMin, replaceFirst, e1, e2]
  refine ⟨hstart, by omega, by omega, ?_, ?_⟩
  · rw [hstart]
    simp only [List.pairwise_cons, List.mem_cons, List.mem_singleton,
      List.not_mem_nil, List.Pairwise.nil]
    refine ⟨?_, ?_, ?_, by simp⟩ <;> intro x hx <;> omega
  · intro t
    rw [hstart]
    simp only [List.zip, List.zipWith, runningAt, POOL_max_workers]
    split_ifs <;> omega

/-- Witness for claim C7 at concrete durations 2, 3, 5, 1: the fourth job
starts at min 2 (min 3 5) = 2, and at time 0 no more than three jobs run. -/
theorem pool_fifo_bound_witness :
    startTimes [0, 0, 0] [2, 3, 5, 1] = [0, 0, 0, min 2 (min 3 5)]
    ∧ runningAt 0 ((startTimes [0, 0, 0] [2, 3, 5, 1]).zip [2, 3, 5, 1])
        ≤ POOL_max_workers :=
  ⟨(pool_fifo_bound 2 3 5 1 (by decide) (by decide) (by decide)).1,
   (pool_fifo_bound 2 3 5 1 (by decide) (by decide) (by decide)).2.2.2.2 0⟩
